import Mathlib

/-!
Verification development for the gamebot service (`src/app.py`), a small
webhook-driven scoreboard tracker.  The Python source is shallowly embedded:

* Python dicts used as ordered string-keyed maps (`wins`, `player_points`,
  `player_games`) become association lists `List (String × Nat)` that
  preserve insertion order, as Python 3.7+ dicts do; updating an existing
  key keeps its position, a new key is appended at the end.
* `time.asctime()` and `uuid.uuid4()` are nondeterministic inputs; each
  operation takes the current time string and a candidate fresh id as
  explicit arguments.
* Operations that can raise (`IndexError` from `sorted_results[-1]` or
  `scoreboard[0]`) return `Option`: `none` is the raised exception, and the
  returned state is the state at the moment the exception is thrown, since
  Python mutations before the raise are not rolled back.
* The process-wide mutable state (`app.history`, `app.state['session']`,
  and the file written by `save_history`) is an explicit `AppState` record
  threaded through each handler.
-/

/-- `Session` from `app.py` (`Session.__init__` / `Session.json`): the json
form has exactly these four fields, so one structure serves for both the
live object and its dict in `history['sessions']`. -/
structure Session where
  start_time : String
  session_id : String
  end_time : Option String
  game_count : Nat
deriving DecidableEq, Repr

/-- `Record.json()` from `app.py`: one game record as stored in
`history['games']`. -/
structure GameRecord where
  timestamp : String
  scoreboard : List String
  session_id : Option String
deriving DecidableEq, Repr

/-- The persisted document `app.history`: games and closed sessions. -/
structure History where
  games : List GameRecord
  sessions : List Session
deriving DecidableEq, Repr

/-- Whole-process state: the history document, `app.state['session']`, and
the contents of `game_history.json` on disk (`none` = file absent). -/
structure AppState where
  history : History
  session : Option Session
  disk : Option History
deriving DecidableEq, Repr

/-- First value bound to key `k` in an insertion-ordered dict, with a
default: Python's `d.get(k, dflt)` / `d[k]` after a membership check. -/
def lookupD : List (String × Nat) → String → Nat → Nat
  | [], _, dflt => dflt
  | kv :: t, k, dflt => if kv.1 = k then kv.2 else lookupD t k dflt

/-- The Python idiom `if k not in d: d[k] = 0` followed by `d[k] += i`:
bump key `k` by `i`, appending it (Python dict insertion order) when new. -/
def bump (d : List (String × Nat)) (k : String) (i : Nat) : List (String × Nat) :=
  if d.any (fun kv => kv.1 == k) then
    d.map (fun kv => if kv.1 == k then (kv.1, kv.2 + i) else kv)
  else
    d ++ [(k, i)]

/-- `get_wins(games)` from `app.py`: one win to `scoreboard[0]` of each
game.  A game with an empty scoreboard makes `scoreboard[0]` raise
`IndexError`, hence the `Option`. -/
def get_wins (games : List GameRecord) : Option (List (String × Nat)) :=
  games.foldlM
    (fun wins r =>
      match r.scoreboard with
      | [] => none
      | w :: _ => some (bump wins w 1))
    []

/-- Python's ascending comparison on `(win_count, player_name)` tuples:
lexicographic, ints then strings (strings compared by code points, which is
the order of Mathlib's `LinearOrder String`). -/
def tupLE (a b : Nat × String) : Prop :=
  a.1 < b.1 ∨ (a.1 = b.1 ∧ a.2 ≤ b.2)

instance : DecidableRel tupLE := fun a b =>
  inferInstanceAs (Decidable (a.1 < b.1 ∨ (a.1 = b.1 ∧ a.2 ≤ b.2)))

instance : IsTotal (Nat × String) tupLE where
  total a b := by
    rcases Nat.lt_trichotomy a.1 b.1 with h | h | h
    · exact Or.inl (Or.inl h)
    · rcases le_total a.2 b.2 with h2 | h2
      · exact Or.inl (Or.inr ⟨h, h2⟩)
      · exact Or.inr (Or.inr ⟨h.symm, h2⟩)
    · exact Or.inr (Or.inl h)

instance : IsTrans (Nat × String) tupLE where
  trans a b c hab hbc := by
    rcases hab with h1 | ⟨e1, l1⟩
    · rcases hbc with h2 | ⟨e2, _⟩
      · exact Or.inl (h1.trans h2)
      · exact Or.inl (e2 ▸ h1)
    · rcases hbc with h2 | ⟨e2, l2⟩
      · exact Or.inl (e1 ▸ h2)
      · exact Or.inr ⟨e1.trans e2, l1.trans l2⟩

/-- `get_winner(games)` from `app.py`: sort the `(win_count, name)` pairs
ascending and take the last entry's name; `sorted_results[-1]` on an empty
list raises `IndexError` (`none`). -/
def get_winner (games : List GameRecord) : Option String := do
  let wins ← get_wins games
  let sorted_results := List.insertionSort tupLE (wins.map (fun kv => (kv.2, kv.1)))
  match sorted_results.getLast? with
  | none => none
  | some p => some p.2

/-- Accumulated scoring state of `summarize`: `player_points` and
`player_games` (the source's unused `total_games` counter is dropped). -/
structure Stats where
  player_points : List (String × Nat)
  player_games : List (String × Nat)
deriving DecidableEq, Repr

/-- The inner loop of `summarize` over one scoreboard:
`for n, name in enumerate(scoreboard, 1)` credits `num_players - n` points
and one played game to `name`. `sb.enum` is 0-indexed, so rank `n = i + 1`
and the points are `sb.length - (i + 1)`. -/
def summarizeGame (acc : Stats) (sb : List String) : Stats :=
  sb.enum.foldl
    (fun a e =>
      { player_points := bump a.player_points e.2 (sb.length - (e.1 + 1)),
        player_games := bump a.player_games e.2 1 })
    acc

/-- `summarize(games)` from `app.py`. -/
def summarize (games : List GameRecord) : Stats :=
  games.foldl (fun acc r => summarizeGame acc r.scoreboard) ⟨[], []⟩

/-- Python's descending stable sort key `x[1]` (`reverse=True`): `a` goes
before `b` when `b`'s average is at most `a`'s. -/
def descSnd (a b : String × ℚ) : Prop := b.2 ≤ a.2

instance : DecidableRel descSnd := fun a b =>
  inferInstanceAs (Decidable (b.2 ≤ a.2))

instance : IsTotal (String × ℚ) descSnd where
  total a b := le_total b.2 a.2

instance : IsTrans (String × ℚ) descSnd where
  trans _ _ _ hab hbc := le_trans hbc hab

/-- The list built by `pretty_print` before formatting: one
`(name, points/games)` pair per key of `player_games` (in dict order),
then `sorted(key=lambda x: x[1], reverse=True)`.  Python float division is
modelled by exact division in `ℚ`. -/
def points_per_game (stats : Stats) : List (String × ℚ) :=
  List.insertionSort descSnd
    (stats.player_games.map
      (fun kv => (kv.1, (lookupD stats.player_points kv.1 0 : ℚ) / (kv.2 : ℚ))))

/-- `this_session()` from `app.py`: return the open session, creating one
(fresh uuid `id`, `start_time = now`, `game_count = 0`) when none is open. -/
def this_session (st : AppState) (now id : String) : Session × AppState :=
  match st.session with
  | some s => (s, st)
  | none =>
      let s : Session := ⟨now, id, none, 0⟩
      (s, { st with session := some s })

/-- `save_history(history, filename)` from `app.py`: overwrite the file
with the current document. -/
def save_history (st : AppState) : AppState :=
  { st with disk := some st.history }

/-- `Session.end()` from `app.py`: set `end_time` in place (named `close`
because `end` is a Lean keyword). -/
def Session.close (s : Session) (now : String) : Session :=
  { s with end_time := some now }

/-- The filter of `this_sessions_games()`: records whose `session_id`
matches the given session's. -/
def gamesFor (games : List GameRecord) (sid : String) : List GameRecord :=
  games.filter (fun r => r.session_id == some sid)

/-- `start_session()` from `app.py`: ensure a session exists and report its
start time. -/
def start_session (st : AppState) (now id : String) : String × AppState :=
  let (s, st1) := this_session st now id
  ("Session started at " ++ s.start_time, st1)

/-- `end_session()` from `app.py`.  In source order: `this_session().end()`
mutates the open session and its json is appended to `history['sessions']`;
`save_history` writes the file; then `get_winner` over this session's games
runs.  When `get_winner` raises (zero games), the exception propagates
(`none`) and the line `app.state['session'] = None` is never reached, so
the returned state keeps the mutations made before the raise. -/
def end_session (st : AppState) (now id : String) : Option String × AppState :=
  let (s0, st1) := this_session st now id
  let s := s0.close now
  let st2 : AppState :=
    { st1 with
      session := some s,
      history := { st1.history with sessions := st1.history.sessions ++ [s] } }
  let st3 := save_history st2
  let games := gamesFor st3.history.games s.session_id
  match get_winner games with
  | none => (none, st3)
  | some w =>
      (some ("Session ended at " ++ now ++ " after " ++ toString s.game_count
              ++ " games. Winner is " ++ w ++ "!"),
       { st3 with session := none })

/-- `log_result()` from `app.py` (the `/gameover` handler), taking the
already-split scoreboard (`request.form.get('text').split()`).  In source
order: the record is appended with the active session's id, `game_count`
is incremented, the history is saved; only then does `scoreboard[0]` run,
raising `IndexError` on an empty scoreboard (`none`) with the mutations
kept.  On the success path `get_wins` over this session's games can itself
raise if an earlier record of the session has an empty scoreboard.  The
response text's stats block (a Python dict repr and `{:0.3f}` float
formatting) is elided; no claim mentions it. -/
def log_result (st : AppState) (scoreboard : List String) (now id : String) :
    Option String × AppState :=
  let (s, st1) := this_session st now id
  let record : GameRecord := ⟨now, scoreboard, some s.session_id⟩
  let s' := { s with game_count := s.game_count + 1 }
  let st2 : AppState :=
    { st1 with
      session := some s',
      history := { st1.history with games := st1.history.games ++ [record] } }
  let st3 := save_history st2
  match scoreboard with
  | [] => (none, st3)
  | w :: rest =>
      match get_wins (gamesFor st3.history.games s'.session_id) with
      | none => (none, st3)
      | some _ =>
          (some ("Got it! " ++ w ++ " beat " ++ String.intercalate " and " rest),
           st3)

/-- A sequence of `/gameover` submissions: each element is a scoreboard
together with its `time.asctime()` and candidate uuid inputs. -/
def runRecords (st : AppState) (subs : List (List String × String × String)) :
    AppState :=
  subs.foldl (fun s sub => (log_result s sub.1 sub.2.1 sub.2.2).2) st

/-- Number of records in a game list tagged with the given session id. -/
def countFor (games : List GameRecord) (sid : String) : Nat :=
  (gamesFor games sid).length

/-!
## Persistence model

`save_history` writes `json.dump(history, fh, indent=2)` and startup does
`app.history.update(**json.load(fh))`.  The JSON text layer is modelled by
a tree of JSON values (`json.dump` followed by `json.load` of the same
text is the identity on such trees); `encHistory` is the tree `json.dump`
receives for a `History` document, and `loadHistory` is the startup path:
parse the tree back into the in-memory document, merging the file's keys
over the initial `{'games': [], 'sessions': []}`. -/

/-- A JSON value, as produced by `json.dump` for this program's documents:
objects keep key order. -/
inductive JVal where
  | null : JVal
  | str : String → JVal
  | num : Nat → JVal
  | arr : List JVal → JVal
  | obj : List (String × JVal) → JVal

/-- An optional string field (`session_id` of a record, `end_time`):
Python `None` serializes to JSON `null`. -/
def encOptStr : Option String → JVal
  | none => JVal.null
  | some s => JVal.str s

/-- The dict `Record.json()` returns, as a JSON object. -/
def encRecord (r : GameRecord) : JVal :=
  JVal.obj
    [("timestamp", JVal.str r.timestamp),
     ("scoreboard", JVal.arr (r.scoreboard.map JVal.str)),
     ("session_id", encOptStr r.session_id)]

/-- The dict `Session.json()` returns, as a JSON object. -/
def encSession (s : Session) : JVal :=
  JVal.obj
    [("session_id", JVal.str s.session_id),
     ("start_time", JVal.str s.start_time),
     ("end_time", encOptStr s.end_time),
     ("game_count", JVal.num s.game_count)]

/-- The full document `save_history` serializes. -/
def encHistory (h : History) : JVal :=
  JVal.obj
    [("games", JVal.arr (h.games.map encRecord)),
     ("sessions", JVal.arr (h.sessions.map encSession))]

/-- Key lookup in a JSON object body. -/
def jLookup (kvs : List (String × JVal)) (k : String) : Option JVal :=
  (kvs.find? (fun kv => kv.1 == k)).map (fun kv => kv.2)

/-- Read a JSON string. -/
def decStr : JVal → Option String
  | JVal.str s => some s
  | _ => none

/-- Read a JSON array of strings, failing on any non-string element. -/
def decStrList : List JVal → Option (List String)
  | [] => some []
  | j :: t => do
      let s ← decStr j
      let rest ← decStrList t
      pure (s :: rest)

/-- Read a nullable JSON string. -/
def decOptStr : JVal → Option (Option String)
  | JVal.null => some none
  | JVal.str s => some (some s)
  | _ => none

/-- Read a JSON number (the only numeric field, `game_count`, is a
non-negative int). -/
def decNat : JVal → Option Nat
  | JVal.num n => some n
  | _ => none

/-- Read one element of the `games` array back into a `GameRecord`. -/
def decRecord : JVal → Option GameRecord
  | JVal.obj kvs => do
      let t ← jLookup kvs "timestamp" >>= decStr
      let sb ← match jLookup kvs "scoreboard" with
        | some (JVal.arr xs) => decStrList xs
        | _ => none
      let sid ← jLookup kvs "session_id" >>= decOptStr
      pure ⟨t, sb, sid⟩
  | _ => none

/-- Read one element of the `sessions` array back into a `Session`. -/
def decSession : JVal → Option Session
  | JVal.obj kvs => do
      let sid ← jLookup kvs "session_id" >>= decStr
      let st ← jLookup kvs "start_time" >>= decStr
      let et ← jLookup kvs "end_time" >>= decOptStr
      let gc ← jLookup kvs "game_count" >>= decNat
      pure ⟨st, sid, et, gc⟩
  | _ => none

/-- Read the `games` array element-wise. -/
def decRecordList : List JVal → Option (List GameRecord)
  | [] => some []
  | j :: t => do
      let r ← decRecord j
      let rest ← decRecordList t
      pure (r :: rest)

/-- Read the `sessions` array element-wise. -/
def decSessionList : List JVal → Option (List Session)
  | [] => some []
  | j :: t => do
      let s ← decSession j
      let rest ← decSessionList t
      pure (s :: rest)

/-- The startup load: `app.history.update(**json.load(fh))` over the
initial document `init`.  A key present in the file replaces the initial
value of that key; an absent key leaves the initial value. -/
def loadHistory (init : History) (j : JVal) : Option History :=
  match j with
  | JVal.obj kvs => do
      let games ← match jLookup kvs "games" with
        | none => some init.games
        | some (JVal.arr xs) => decRecordList xs
        | some _ => none
      let sessions ← match jLookup kvs "sessions" with
        | none => some init.sessions
        | some (JVal.arr xs) => decSessionList xs
        | some _ => none
      pure ⟨games, sessions⟩
  | _ => none

/-!
## Specification-side derived quantities

Used to state what the scoring code computes, independent of its
accumulator loop. -/

/-- Points the spec assigns to player `p` in one scoreboard: at 0-based
position `i` of a size-`N` board (rank `n = i + 1`) a player earns
`N − n` points. -/
def gamePoints (p : String) (sb : List String) : Nat :=
  (sb.enum.map (fun e => if e.2 = p then sb.length - (e.1 + 1) else 0)).sum

/-- Swap a `(name, count)` entry of the wins dict into the `(count, name)`
tuple that `get_winner` sorts. -/
def swapPair (kv : String × Nat) : Nat × String := (kv.2, kv.1)

/-- Fixtures: a freshly started session with no games, and the spec's
worked examples. -/
def sampleSession : Session := ⟨"Mon", "sid0", none, 0⟩

/-- A state with one open zero-game session, empty history, no file. -/
def zeroGamesState : AppState := ⟨⟨[], []⟩, some sampleSession, none⟩

/-- The spec's winner example: games `[["A","B"],["B","A"],["A","B"]]`. -/
def winnerExample : List GameRecord :=
  [⟨"t1", ["A", "B"], none⟩, ⟨"t2", ["B", "A"], none⟩, ⟨"t3", ["A", "B"], none⟩]

/-- The spec's scoring example: one game `["A","B","C"]`. -/
def scoringExample : List GameRecord := [⟨"t1", ["A", "B", "C"], none⟩]

/-!
## Dictionary lemmas -/

/-- `bump` never returns the empty dict. -/
theorem bump_ne_nil (d : List (String × Nat)) (k : String) (i : Nat) :
    bump d k i ≠ [] := by
  unfold bump
  split
  · rename_i h
    cases d with
    | nil => simp at h
    | cons e t => simp
  · simp

/-- Bumping key `k` leaves the value found for a different key unchanged
(the map branch of `bump` rewrites only entries with key `k`). -/
theorem lookupD_cons (x : String × Nat) (l : List (String × Nat)) (p : String)
    (d : Nat) : lookupD (x :: l) p d = if x.1 = p then x.2 else lookupD l p d :=
  rfl

theorem lookupD_map_bump_ne (t : List (String × Nat)) (k p : String) (i : Nat)
    (hpk : p ≠ k) :
    lookupD (t.map (fun kv => if kv.1 == k then (kv.1, kv.2 + i) else kv)) p 0
      = lookupD t p 0 := by
  induction t with
  | nil => rfl
  | cons e t ih =>
      rw [List.map_cons]
      by_cases hek : e.1 = k
      · have hep : e.1 ≠ p := fun h => hpk (h.symm.trans hek)
        rw [if_pos (show (e.1 == k) = true by simp [hek])]
        rw [lookupD_cons, lookupD_cons, if_neg hep]
        show lookupD _ p 0 = _
        rw [ih, if_neg hep]
      · rw [if_neg (show ¬ (e.1 == k) = true by simp [hek])]
        by_cases hep : e.1 = p
        · rw [lookupD_cons, if_pos hep, lookupD_cons, if_pos hep]
        · rw [lookupD_cons, if_neg hep, lookupD_cons, if_neg hep, ih]

/-- When the head's key differs from the bumped key, `bump` passes the
head through and bumps the tail. -/
theorem bump_cons_ne (e : String × Nat) (t : List (String × Nat))
    (k : String) (i : Nat) (hek : e.1 ≠ k) :
    bump (e :: t) k i = e :: bump t k i := by
  have hek' : (e.1 == k) = false := by simp [hek]
  by_cases hat : t.any (fun kv => kv.1 == k) <;>
    simp [bump, List.any, hek', hek, hat]

/-- When the head's key is the bumped key, the head gains `i` and the tail
is passed through `bump`'s rewriting map. -/
theorem bump_cons_eq (e : String × Nat) (t : List (String × Nat))
    (k : String) (i : Nat) (hek : e.1 = k) :
    bump (e :: t) k i
      = (e.1, e.2 + i)
          :: t.map (fun kv => if kv.1 == k then (kv.1, kv.2 + i) else kv) := by
  have hany : ((e :: t).any (fun kv => kv.1 == k)) = true := by
    simp [List.any, hek]
  rw [bump, if_pos hany, List.map_cons,
    if_pos (show (e.1 == k) = true by simp [hek])]

/-- The value `lookupD` reads after a `bump`: the bumped key gains `i`,
every other key is unchanged (keys absent from the dict read as the
default `0`, matching `d.get(k, 0)`). -/
theorem lookupD_bump (d : List (String × Nat)) (k p : String) (i : Nat) :
    lookupD (bump d k i) p 0 = lookupD d p 0 + (if p = k then i else 0) := by
  induction d with
  | nil =>
      have h0 : bump [] k i = [(k, i)] := rfl
      rw [h0, lookupD_cons]
      by_cases hpk : p = k
      · rw [if_pos hpk.symm, if_pos hpk]
        show i = 0 + i
        omega
      · rw [if_neg (fun h => hpk h.symm), if_neg hpk, lookupD]
  | cons e t ih =>
      by_cases hek : e.1 = k
      · rw [bump_cons_eq e t k i hek, lookupD_cons, lookupD_cons]
        by_cases hpk : p = k
        · have hep : e.1 = p := hek.trans hpk.symm
          rw [if_pos hep, if_pos hep, if_pos hpk]
        · have hep : e.1 ≠ p := fun h => hpk (h.symm.trans hek)
          rw [if_neg hep, if_neg hep, if_neg hpk,
            lookupD_map_bump_ne t k p i hpk]
          omega
      · rw [bump_cons_ne e t k i hek, lookupD_cons, lookupD_cons]
        by_cases hep : e.1 = p
        · have hpk : ¬ p = k := fun h => hek (hep.trans h)
          rw [if_pos hep, if_pos hep, if_neg hpk]
          omega
        · rw [if_neg hep, if_neg hep, ih]

/-- Bumping by a positive amount keeps every stored value positive: each
result entry is an input entry, an input entry increased by `i`, or the
fresh `(k, i)`. -/
theorem bump_pos (d : List (String × Nat)) (k : String) (i : Nat)
    (hd : ∀ kv ∈ d, 0 < kv.2) (hi : 0 < i) :
    ∀ kv ∈ bump d k i, 0 < kv.2 := by
  intro kv hkv
  rw [bump] at hkv
  split at hkv
  · rcases List.mem_map.mp hkv with ⟨e, he, heq⟩
    have hpos := hd e he
    by_cases hek : (e.1 == k) = true
    · rw [if_pos hek] at heq
      rw [← heq]
      exact Nat.lt_add_right i hpos
    · rw [if_neg hek] at heq
      exact heq ▸ hpos
  · rcases List.mem_append.mp hkv with h | h
    · exact hd kv h
    · rcases List.mem_singleton.mp h with rfl
      exact hi

/-- `lookupD_bump` with the condition flipped to `k = p`, the orientation
`gamePoints` uses. -/
theorem lookupD_bump2 (d : List (String × Nat)) (k p : String) (i : Nat) :
    lookupD (bump d k i) p 0 = lookupD d p 0 + (if k = p then i else 0) := by
  rw [lookupD_bump]
  by_cases h : p = k
  · rw [if_pos h, if_pos h.symm]
  · rw [if_neg h, if_neg (fun hh => h hh.symm)]

/-- Points credited to `p` by one pass of `summarize`'s inner loop: the
accumulator gains exactly the `N − n` points of `p`'s appearances. -/
theorem summarizeGame_points (acc : Stats) (sb : List String) (p : String) :
    lookupD (summarizeGame acc sb).player_points p 0
      = lookupD acc.player_points p 0 + gamePoints p sb := by
  rw [summarizeGame, gamePoints]
  generalize sb.enum = l
  induction l generalizing acc with
  | nil => simp
  | cons e l ih =>
      rw [List.foldl_cons, ih, List.map_cons, List.sum_cons]
      show lookupD (bump acc.player_points e.2 (sb.length - (e.1 + 1))) p 0 + _ = _
      rw [lookupD_bump2]
      omega

/-- Games counted for `p` by one pass of the inner loop: one per
appearance of `p` in the scoreboard. -/
theorem summarizeGame_games (acc : Stats) (sb : List String) (p : String) :
    lookupD (summarizeGame acc sb).player_games p 0
      = lookupD acc.player_games p 0
          + (sb.enum.map (fun e => if e.2 = p then 1 else 0)).sum := by
  rw [summarizeGame]
  generalize sb.enum = l
  induction l generalizing acc with
  | nil => simp
  | cons e l ih =>
      rw [List.foldl_cons, ih, List.map_cons, List.sum_cons]
      show lookupD (bump acc.player_games e.2 1) p 0 + _ = _
      rw [lookupD_bump2]
      omega

/-- Summing `1` over the enumerated appearances of `p` counts `p`'s
occurrences, whatever the enumeration starts at. -/
theorem enumFrom_count_p (p : String) :
    ∀ (sb : List String) (n : Nat),
      ((List.enumFrom n sb).map (fun e => if e.2 = p then 1 else 0)).sum
        = sb.count p := by
  intro sb
  induction sb with
  | nil => intro n; rfl
  | cons a sb ih =>
      intro n
      rw [List.enumFrom, List.map_cons, List.sum_cons, ih (n + 1),
        List.count_cons]
      by_cases h : a = p
      · rw [if_pos h, if_pos (beq_iff_eq.mpr h)]
        omega
      · rw [if_neg h, if_neg (by simp [h])]
        omega

/-- The inner-loop count, restated through `List.count`. -/
theorem summarizeGame_count (acc : Stats) (sb : List String) (p : String) :
    lookupD (summarizeGame acc sb).player_games p 0
      = lookupD acc.player_games p 0 + sb.count p := by
  rw [summarizeGame_games, List.enum, enumFrom_count_p]

/-- Accumulated points over a whole game list. -/
theorem summarize_points_aux (games : List GameRecord) :
    ∀ (acc : Stats) (p : String),
      lookupD (games.foldl (fun acc r => summarizeGame acc r.scoreboard) acc).player_points p 0
        = lookupD acc.player_points p 0
            + (games.map (fun r => gamePoints p r.scoreboard)).sum := by
  induction games with
  | nil => intro acc p; simp
  | cons r games ih =>
      intro acc p
      rw [List.foldl_cons, ih, summarizeGame_points, List.map_cons,
        List.sum_cons]
      omega

/-- Accumulated game counts over a whole game list. -/
theorem summarize_games_aux (games : List GameRecord) :
    ∀ (acc : Stats) (p : String),
      lookupD (games.foldl (fun acc r => summarizeGame acc r.scoreboard) acc).player_games p 0
        = lookupD acc.player_games p 0
            + (games.map (fun r => r.scoreboard.count p)).sum := by
  induction games with
  | nil => intro acc p; simp
  | cons r games ih =>
      intro acc p
      rw [List.foldl_cons, ih, summarizeGame_count, List.map_cons,
        List.sum_cons]
      omega

/-- One pass of the inner loop keeps every `player_games` value positive
(each bump there is by `1`). -/
theorem summarizeGame_games_pos (sb : List String) (acc : Stats)
    (hacc : ∀ kv ∈ acc.player_games, 0 < kv.2) :
    ∀ kv ∈ (summarizeGame acc sb).player_games, 0 < kv.2 := by
  rw [summarizeGame]
  generalize sb.enum = l
  induction l generalizing acc with
  | nil => exact hacc
  | cons e l ih =>
      rw [List.foldl_cons]
      exact ih _ (bump_pos _ _ _ hacc Nat.one_pos)

/-- Every player in `summarize`'s `player_games` has at least one game. -/
theorem summarize_games_pos (games : List GameRecord) :
    ∀ kv ∈ (summarize games).player_games, 0 < kv.2 := by
  rw [summarize]
  have h : ∀ (acc : Stats), (∀ kv ∈ acc.player_games, 0 < kv.2) →
      ∀ kv ∈ (games.foldl (fun acc r => summarizeGame acc r.scoreboard) acc).player_games,
        0 < kv.2 := by
    induction games with
    | nil => intro acc hacc; exact hacc
    | cons r games ih =>
        intro acc hacc
        rw [List.foldl_cons]
        exact ih _ (summarizeGame_games_pos _ _ hacc)
  exact h ⟨[], []⟩ (by intro kv hkv; simp at hkv)

/-- In a list sorted by a transitive relation, every element is the last
element or relates to it. -/
theorem sorted_getLast?_max {α : Type} {r : α → α → Prop} :
    ∀ (l : List α), List.Sorted r l → ∀ M, l.getLast? = some M →
      ∀ a ∈ l, a = M ∨ r a M
  | [], _, M, hM => by simp at hM
  | [x], _, M, hM => by
      intro a ha
      rcases List.mem_singleton.mp ha with rfl
      left
      simpa using hM
  | x :: y :: t, hs, M, hM => by
      rw [List.getLast?_cons_cons] at hM
      intro a ha
      rcases List.mem_cons.mp ha with rfl | hat
      · right
        have hMmem : M ∈ y :: t := by
          rcases List.mem_getLast?_eq_getLast (l := y :: t) hM with ⟨h, rfl⟩
          exact List.getLast_mem h
        exact List.rel_of_sorted_cons hs M hMmem
      · exact sorted_getLast?_max (y :: t) hs.of_cons M hM a hat

/-- `get_wins`'s fold: from a non-empty accumulator, over games whose
scoreboards are all non-empty, it succeeds with a non-empty dict. -/
theorem foldlM_wins_ne (games : List GameRecord) :
    ∀ (acc : List (String × Nat)), acc ≠ [] →
      (∀ r ∈ games, r.scoreboard ≠ []) →
      ∃ wins,
        (games.foldlM
          (fun wins r =>
            match r.scoreboard with
            | [] => none
            | w :: _ => some (bump wins w 1))
          acc) = some wins ∧ wins ≠ [] := by
  induction games with
  | nil => intro acc hacc _; exact ⟨acc, rfl, hacc⟩
  | cons r games ih =>
      intro acc hacc hsb
      obtain ⟨w, tl, hw⟩ : ∃ w tl, r.scoreboard = w :: tl := by
        cases hsc : r.scoreboard with
        | nil => exact absurd hsc (hsb r (List.mem_cons_self r games))
        | cons w tl => exact ⟨w, tl, rfl⟩
      rw [List.foldlM_cons, hw]
      exact ih (bump acc w 1) (bump_ne_nil _ _ _)
        (fun r hr => hsb r (List.mem_cons_of_mem _ hr))

/-- Over a non-empty game list with non-empty scoreboards, `get_wins`
succeeds and its dict is non-empty. -/
theorem get_wins_some_ne (games : List GameRecord) (hne : games ≠ [])
    (hsb : ∀ r ∈ games, r.scoreboard ≠ []) :
    ∃ wins, get_wins games = some wins ∧ wins ≠ [] := by
  cases games with
  | nil => exact absurd rfl hne
  | cons r gs =>
      obtain ⟨w, tl, hw⟩ : ∃ w tl, r.scoreboard = w :: tl := by
        cases hsc : r.scoreboard with
        | nil => exact absurd hsc (hsb r (List.mem_cons_self r gs))
        | cons w tl => exact ⟨w, tl, rfl⟩
      rw [get_wins, List.foldlM_cons, hw]
      exact foldlM_wins_ne gs (bump [] w 1) (bump_ne_nil _ _ _)
        (fun r hr => hsb r (List.mem_cons_of_mem _ hr))

/-!
## Claim theorems -/

/-- C9: `summarize(games)` credits the player at 1-indexed rank `n` of a
size-`N` scoreboard with `N − n` points per game and one played game per
appearance, accumulated across all given games; over `[["A","B","C"]]` it
yields `player_points {A:2,B:1,C:0}` and `player_games {A:1,B:1,C:1}`. -/
theorem summarize_scoring :
    (∀ (games : List GameRecord) (p : String),
        lookupD (summarize games).player_points p 0
          = (games.map (fun r => gamePoints p r.scoreboard)).sum ∧
        lookupD (summarize games).player_games p 0
          = (games.map (fun r => r.scoreboard.count p)).sum) ∧
    summarize scoringExample
      = ⟨[("A", 2), ("B", 1), ("C", 0)], [("A", 1), ("B", 1), ("C", 1)]⟩ := by
  constructor
  · intro games p
    constructor
    · rw [summarize, summarize_points_aux]
      simp [lookupD]
    · rw [summarize, summarize_games_aux]
      simp [lookupD]
  · decide

/-- C10: `pointsPerGame` (the list `pretty_print` sorts) has one
`(player, player_points/player_games)` pair for each player of
`player_games` — exactly the players with at least one game — and is
sorted by average in descending order; over `[["A","B","C"]]` it is
`[(A,2),(B,1),(C,0)]`. -/
theorem points_per_game_props :
    (∀ games : List GameRecord,
        (points_per_game (summarize games)).Perm
            ((summarize games).player_games.map
              (fun kv =>
                (kv.1, (lookupD (summarize games).player_points kv.1 0 : ℚ)
                        / (kv.2 : ℚ)))) ∧
        List.Sorted descSnd (points_per_game (summarize games)) ∧
        ∀ kv ∈ (summarize games).player_games, 1 ≤ kv.2) ∧
    points_per_game (summarize scoringExample) = [("A", 2), ("B", 1), ("C", 0)] := by
  constructor
  · intro games
    refine ⟨?_, ?_, ?_⟩
    · rw [points_per_game]
      exact List.perm_insertionSort descSnd _
    · rw [points_per_game]
      exact List.sorted_insertionSort descSnd _
    · intro kv hkv
      exact summarize_games_pos games kv hkv
  · have h : summarize scoringExample
        = ⟨[("A", 2), ("B", 1), ("C", 0)], [("A", 1), ("B", 1), ("C", 1)]⟩ := by
      decide
    rw [h]
    simp +decide [points_per_game, lookupD, List.insertionSort,
      List.orderedInsert, descSnd]

/-- C7: calling `start` with a session already open returns a message
built from the existing session's `start_time` and leaves the state — in
particular the open session and its `session_id` — unchanged. -/
theorem start_session_idempotent (st : AppState) (s : Session)
    (now id : String) (h : st.session = some s) :
    start_session st now id = ("Session started at " ++ s.start_time, st) := by
  simp [start_session, this_session, h]

/-- Witness for C7 at a concrete open-session state. -/
theorem start_session_idempotent_witness :
    start_session zeroGamesState "Tue" "u1"
      = ("Session started at " ++ sampleSession.start_time, zeroGamesState) :=
  start_session_idempotent zeroGamesState sampleSession "Tue" "u1" rfl

/-- C5: over a non-empty game list (with the non-empty scoreboards the
data model guarantees), `winner` succeeds and returns the name of the last
entry of the ascending `(win_count, name)` sort: a player whose
`(win_count, name)` pair dominates every entry of `winCounts` under the
tuple order — highest win count, ties broken by the lexicographically
greatest name; and over `[["A","B"],["B","A"],["A","B"]]` it returns
`"A"`. -/
theorem get_winner_max (games : List GameRecord) (hne : games ≠ [])
    (hsb : ∀ r ∈ games, r.scoreboard ≠ []) :
    (∃ wins v w, get_wins games = some wins ∧ get_winner games = some w ∧
        (v, w) ∈ wins.map swapPair ∧
        ∀ kv ∈ wins, tupLE (kv.2, kv.1) (v, w)) ∧
    get_winner winnerExample = some "A" := by
  constructor
  · obtain ⟨wins, hwins, hwne⟩ := get_wins_some_ne games hne hsb
    set l := wins.map (fun kv => (kv.2, kv.1)) with hl
    have hlne : l ≠ [] := by
      rw [hl]
      simpa using hwne
    set srt := List.insertionSort tupLE l with hsrt
    have hsne : srt ≠ [] := by
      intro h
      rw [hsrt] at h
      have hperm := List.perm_insertionSort tupLE l
      rw [h] at hperm
      exact hlne hperm.symm.eq_nil
    obtain ⟨M, hM⟩ : ∃ M, srt.getLast? = some M := by
      cases h : srt.getLast? with
      | some M => exact ⟨M, rfl⟩
      | none => rw [List.getLast?_eq_none_iff] at h; exact absurd h hsne
    have hwinner : get_winner games = some M.2 := by
      rw [get_winner, hwins]
      show (match (List.insertionSort tupLE
          (wins.map (fun kv => (kv.2, kv.1)))).getLast? with
        | none => (none : Option String)
        | some p => some p.2) = some M.2
      rw [← hl, ← hsrt, hM]
    have hsorted : List.Sorted tupLE srt := by
      rw [hsrt]
      exact List.sorted_insertionSort tupLE l
    have hmax : ∀ a ∈ l, tupLE a M := by
      intro a ha
      have has : a ∈ srt := by
        rw [hsrt]
        exact (List.mem_insertionSort tupLE).mpr ha
      rcases sorted_getLast?_max srt hsorted M hM a has with rfl | hr
      · exact Or.inr ⟨rfl, le_refl _⟩
      · exact hr
    have hMl : M ∈ l := by
      rcases List.mem_getLast?_eq_getLast (l := srt) hM with ⟨h, hMe⟩
      have hmem : M ∈ srt := by
        rw [hMe]
        exact List.getLast_mem h
      rw [hsrt] at hmem
      exact (List.mem_insertionSort tupLE).mp hmem
    refine ⟨wins, M.1, M.2, hwins, hwinner, ?_, ?_⟩
    · have hswap : wins.map swapPair = l := by rw [hl]; rfl
      rw [hswap]
      simpa using hMl
    · intro kv hkv
      have hmem : (kv.2, kv.1) ∈ l := by
        rw [hl]
        exact List.mem_map_of_mem _ hkv
      exact hmax _ hmem
  · decide

/-- Witness for C5 at the spec's worked example. -/
theorem get_winner_max_witness :
    (∃ wins v w, get_wins winnerExample = some wins ∧
        get_winner winnerExample = some w ∧
        (v, w) ∈ wins.map swapPair ∧
        ∀ kv ∈ wins, tupLE (kv.2, kv.1) (v, w)) ∧
    get_winner winnerExample = some "A" :=
  get_winner_max winnerExample (by decide) (by decide)

/-- Evaluating `end_session` from an open session with no recorded games:
the session is closed and appended, the file is written, and then
`get_winner` raises, so the handler returns no message and the open
session reference survives. -/
theorem end_session_eq_of_no_games (st : AppState) (s : Session)
    (now id : String) (h1 : st.session = some s)
    (h2 : gamesFor st.history.games s.session_id = []) :
    end_session st now id
      = (none,
         ⟨⟨st.history.games, st.history.sessions ++ [s.close now]⟩,
          some (s.close now),
          some ⟨st.history.games, st.history.sessions ++ [s.close now]⟩⟩) := by
  have hsid : (s.close now).session_id = s.session_id := rfl
  have hfilter : gamesFor st.history.games (s.close now).session_id = [] := by
    rw [hsid, h2]
  have hgw : get_winner ([] : List GameRecord) = none := rfl
  simp [end_session, this_session, h1, save_history, hfilter, hgw]

/-- Evaluating the mutation part of `log_result`: whatever the response
branch (raise on an empty scoreboard, raise inside the stats block, or
success), the returned state has the record appended, the session's
`game_count` incremented, and the document saved. -/
theorem log_result_state (st : AppState) (s : Session)
    (sb : List String) (now id : String) (h1 : st.session = some s) :
    (log_result st sb now id).2
      = ⟨⟨st.history.games ++ [⟨now, sb, some s.session_id⟩],
          st.history.sessions⟩,
         some ⟨s.start_time, s.session_id, s.end_time, s.game_count + 1⟩,
         some ⟨st.history.games ++ [⟨now, sb, some s.session_id⟩],
               st.history.sessions⟩⟩ := by
  cases sb with
  | nil => simp [log_result, this_session, h1, save_history]
  | cons w rest =>
      simp only [log_result, this_session, h1, save_history]
      split <;> rfl

/-- Appending a record tagged with `sid` to the history increases the
per-session count by exactly one. -/
theorem countFor_append_mem (gs : List GameRecord) (r : GameRecord)
    (sid : String) (h : r.session_id = some sid) :
    countFor (gs ++ [r]) sid = countFor gs sid + 1 := by
  simp [countFor, gamesFor, List.filter_append, h]

/-- C1 evidence: ending a session with zero recorded games.  The closing
mutations do happen (`end_time` set, closed session appended), but the
handler then raises (`none` response) out of the winner computation
instead of handling the empty leaderboard, and the open-session reference
is never cleared — contradicting the claim that `end()` does not throw. -/
theorem end_session_zero_games_raises :
    (end_session zeroGamesState "Tue" "u1").1 = none ∧
    (end_session zeroGamesState "Tue" "u1").2.history.sessions
      = [⟨"Mon", "sid0", some "Tue", 0⟩] ∧
    (end_session zeroGamesState "Tue" "u1").2.session
      = some ⟨"Mon", "sid0", some "Tue", 0⟩ := by
  decide

/-- C2 evidence: a `/gameover` submission whose text splits to the empty
scoreboard.  No `InvalidInput` rejection happens: the empty-scoreboard
record is appended and saved, `game_count` is incremented, and the handler
then raises (`none` response) at `scoreboard[0]` — contradicting the
claim that the input is rejected with nothing appended. -/
theorem log_result_empty_raises :
    (log_result zeroGamesState [] "Tue" "u1").1 = none ∧
    (log_result zeroGamesState [] "Tue" "u1").2.history.games
      = [⟨"Tue", [], some "sid0"⟩] ∧
    (log_result zeroGamesState [] "Tue" "u1").2.session
      = some ⟨"Mon", "sid0", none, 1⟩ := by
  decide

/-- C3: when `end()` runs with zero games in the open session, the closed
session has already been appended to `History.sessions` and the document
saved to disk before the winner computation fails; the open-session
reference is not cleared, so a second `end()` appends another entry with
the same `session_id`. -/
theorem end_session_mutates_before_failure (st : AppState) (s : Session)
    (now1 id1 now2 id2 : String) (h1 : st.session = some s)
    (h2 : gamesFor st.history.games s.session_id = []) :
    (end_session st now1 id1).1 = none ∧
    (end_session st now1 id1).2.history.sessions
      = st.history.sessions ++ [s.close now1] ∧
    (end_session st now1 id1).2.disk
      = some (end_session st now1 id1).2.history ∧
    (end_session st now1 id1).2.session = some (s.close now1) ∧
    (end_session (end_session st now1 id1).2 now2 id2).2.history.sessions
      = st.history.sessions ++ [s.close now1, (s.close now1).close now2] ∧
    (s.close now1).session_id = s.session_id ∧
    ((s.close now1).close now2).session_id = s.session_id := by
  have e1 := end_session_eq_of_no_games st s now1 id1 h1 h2
  have h2b : gamesFor st.history.games (s.close now1).session_id = [] := h2
  have e2 := end_session_eq_of_no_games
    ⟨⟨st.history.games, st.history.sessions ++ [s.close now1]⟩,
     some (s.close now1),
     some ⟨st.history.games, st.history.sessions ++ [s.close now1]⟩⟩
    (s.close now1) now2 id2 rfl h2b
  rw [e1]
  refine ⟨rfl, rfl, rfl, rfl, ?_, rfl, rfl⟩
  rw [e2]
  simp

/-- Witness for C3 at a concrete zero-game open session. -/
theorem end_session_mutates_before_failure_witness :
    (end_session zeroGamesState "Tue" "u2").1 = none ∧
    (end_session zeroGamesState "Tue" "u2").2.history.sessions
      = zeroGamesState.history.sessions ++ [sampleSession.close "Tue"] ∧
    (end_session zeroGamesState "Tue" "u2").2.disk
      = some (end_session zeroGamesState "Tue" "u2").2.history ∧
    (end_session zeroGamesState "Tue" "u2").2.session
      = some (sampleSession.close "Tue") ∧
    (end_session (end_session zeroGamesState "Tue" "u2").2 "Wed" "u3").2.history.sessions
      = zeroGamesState.history.sessions
          ++ [sampleSession.close "Tue", (sampleSession.close "Tue").close "Wed"] ∧
    (sampleSession.close "Tue").session_id = sampleSession.session_id ∧
    ((sampleSession.close "Tue").close "Wed").session_id
      = sampleSession.session_id :=
  end_session_mutates_before_failure zeroGamesState sampleSession
    "Tue" "u2" "Wed" "u3" rfl rfl

/-- C4: a `/gameover` submission whose text splits to the empty scoreboard
appends the empty-scoreboard record to `History.games`, increments the
open session's `game_count`, and saves the document to disk, and only then
fails (no response message) at the winner extraction. -/
theorem log_result_empty_mutates (st : AppState) (s : Session)
    (now id : String) (h1 : st.session = some s) :
    (log_result st [] now id).1 = none ∧
    (log_result st [] now id).2.history.games
      = st.history.games ++ [⟨now, [], some s.session_id⟩] ∧
    (log_result st [] now id).2.session
      = some ⟨s.start_time, s.session_id, s.end_time, s.game_count + 1⟩ ∧
    (log_result st [] now id).2.disk
      = some (log_result st [] now id).2.history := by
  have hstate := log_result_state st s [] now id h1
  refine ⟨?_, ?_, ?_, ?_⟩
  · simp [log_result, this_session, h1, save_history]
  · rw [hstate]
  · rw [hstate]
  · rw [hstate]

/-- Witness for C4 at a concrete open-session state. -/
theorem log_result_empty_mutates_witness :
    (log_result zeroGamesState [] "Tue" "u2").1 = none ∧
    (log_result zeroGamesState [] "Tue" "u2").2.history.games
      = zeroGamesState.history.games
          ++ [⟨"Tue", [], some sampleSession.session_id⟩] ∧
    (log_result zeroGamesState [] "Tue" "u2").2.session
      = some ⟨sampleSession.start_time, sampleSession.session_id,
              sampleSession.end_time, sampleSession.game_count + 1⟩ ∧
    (log_result zeroGamesState [] "Tue" "u2").2.disk
      = some (log_result zeroGamesState [] "Tue" "u2").2.history :=
  log_result_empty_mutates zeroGamesState sampleSession "Tue" "u2" rfl

/-- C6: from any state whose open session's `game_count` already equals the
number of its records (as holds for a freshly created session with an
unused uuid), every sequence of `record` calls preserves the match: the
session stays open with the same `session_id` and its `game_count` equals
the count of `GameRecord`s in `History.games` bearing that id. -/
theorem game_count_matches_history (subs : List (List String × String × String)) :
    ∀ (st : AppState) (s : Session), st.session = some s →
      countFor st.history.games s.session_id = s.game_count →
      ∃ t : Session, (runRecords st subs).session = some t ∧
        t.session_id = s.session_id ∧
        countFor (runRecords st subs).history.games t.session_id
          = t.game_count := by
  induction subs with
  | nil =>
      intro st s h1 h2
      exact ⟨s, h1, rfl, h2⟩
  | cons sub subs ih =>
      intro st s h1 h2
      have hstate := log_result_state st s sub.1 sub.2.1 sub.2.2 h1
      have hrun : runRecords st (sub :: subs)
          = runRecords (log_result st sub.1 sub.2.1 sub.2.2).2 subs := by
        rw [runRecords, List.foldl_cons]
        rfl
      rw [hrun, hstate]
      have hcount : countFor
          (st.history.games ++ [⟨sub.2.1, sub.1, some s.session_id⟩])
          s.session_id = s.game_count + 1 := by
        rw [countFor_append_mem st.history.games _ s.session_id rfl, h2]
      obtain ⟨t, ht1, ht2, ht3⟩ := ih
        ⟨⟨st.history.games ++ [⟨sub.2.1, sub.1, some s.session_id⟩],
          st.history.sessions⟩,
         some ⟨s.start_time, s.session_id, s.end_time, s.game_count + 1⟩,
         some ⟨st.history.games ++ [⟨sub.2.1, sub.1, some s.session_id⟩],
               st.history.sessions⟩⟩
        ⟨s.start_time, s.session_id, s.end_time, s.game_count + 1⟩
        rfl hcount
      exact ⟨t, ht1, ht2, ht3⟩

/-- Witness for C6: two recorded games from a fresh session. -/
theorem game_count_matches_history_witness :
    ∃ t : Session,
      (runRecords zeroGamesState
        [(["A", "B"], "t1", "u2"), (["B", "A"], "t2", "u3")]).session = some t ∧
      t.session_id = sampleSession.session_id ∧
      countFor (runRecords zeroGamesState
          [(["A", "B"], "t1", "u2"), (["B", "A"], "t2", "u3")]).history.games
          t.session_id
        = t.game_count :=
  game_count_matches_history [(["A", "B"], "t1", "u2"), (["B", "A"], "t2", "u3")]
    zeroGamesState sampleSession rfl rfl

/-- Decoding an encoded optional string recovers it. -/
theorem decOptStr_enc (o : Option String) : decOptStr (encOptStr o) = some o := by
  cases o <;> rfl

/-- Decoding an encoded list of strings recovers it. -/
theorem decStrList_enc (sb : List String) :
    decStrList (sb.map JVal.str) = some sb := by
  induction sb with
  | nil => rfl
  | cons a sb ih => simp [decStrList, decStr, ih]

/-- Decoding an encoded game record recovers it. -/
theorem decRecord_enc (r : GameRecord) : decRecord (encRecord r) = some r := by
  obtain ⟨t, sb, sid⟩ := r
  simp +decide [decRecord, encRecord, jLookup, List.find?, decStr,
    decStrList_enc, decOptStr_enc]

/-- Decoding an encoded games array recovers it. -/
theorem decRecordList_enc (gs : List GameRecord) :
    decRecordList (gs.map encRecord) = some gs := by
  induction gs with
  | nil => rfl
  | cons r gs ih => simp [decRecordList, decRecord_enc, ih]

/-- Decoding an encoded session recovers it. -/
theorem decSession_enc (s : Session) : decSession (encSession s) = some s := by
  obtain ⟨st, sid, et, gc⟩ := s
  simp +decide [decSession, encSession, jLookup, List.find?, decStr, decNat,
    decOptStr_enc]

/-- Decoding an encoded sessions array recovers it. -/
theorem decSessionList_enc (ss : List Session) :
    decSessionList (ss.map encSession) = some ss := by
  induction ss with
  | nil => rfl
  | cons s ss ih => simp [decSessionList, decSession_enc, ih]

/-- C8: `save` serializes the in-memory document unchanged, and loading
the serialized form of any `History` into the initial empty document
reproduces an equal `History` — same games and sessions, same order. -/
theorem save_load_roundtrip :
    (∀ st : AppState, (save_history st).disk = some st.history) ∧
    ∀ h : History, loadHistory ⟨[], []⟩ (encHistory h) = some h := by
  constructor
  · intro st
    rfl
  · intro h
    obtain ⟨gs, ss⟩ := h
    simp +decide [loadHistory, encHistory, jLookup, List.find?,
      decRecordList_enc, decSessionList_enc]
